import Mathlib

/-!
Verification development for the marc conformer-selection pipeline
(src/marc/marc.py, src/marc/clustering.py, src/marc/helpers.py).

Modelling conventions, used throughout:
* numpy float matrices are modelled as exact rational matrices
  (`Fin n → Fin n → ℚ`); floating-point `sqrt` and `log` are abstracted as
  parameters of type `ℚ → ℚ` where they occur, so structural facts are
  proved for every interpretation of those routines.
* external library calls (sklearn MDS / KMeans / AgglomerativeClustering
  merging, scipy linkage) are modelled as oracle function parameters: the
  repository's own code around them is embedded faithfully.
* a Python block that can raise is modelled as an `Except MarcError`
  value; a block with no raise statement always returns `Except.ok`.
* rational division by zero yields `0` in Lean, whereas numpy emits
  NaN/inf together with a `RuntimeWarning` but raises no exception; in
  both semantics the salient fact is identical: no error is signalled.
-/

/-- Error kinds. The first four name the spec's error taxonomy (§7); the
last three model Python runtime exceptions (`NameError`, `ValueError`,
`AssertionError`).  `InputError` is the single exception class the
repository actually raises. -/
inductive MarcError where
  | inputError
  | degenerateMetric
  | insufficientData
  | malformedMatrix
  | nameError
  | valueError
  | assertionError
  deriving DecidableEq

/-- An N×N dissimilarity matrix over the conformer ensemble. -/
abbrev Mat (n : ℕ) := Fin n → Fin n → ℚ

/-- List of all entries of a matrix, row-major, as produced by flattening a
numpy array. -/
def entriesOf {n : ℕ} (m : Mat n) : List ℚ :=
  (List.finRange n).flatMap (fun i => (List.finRange n).map (fun j => m i j))

/-- `np.max(A)`: maximum entry of the matrix.  numpy errors on an empty
array; the `n = 0` case (value `0` here) is unreachable in the pipeline. -/
def maxEntry {n : ℕ} (m : Mat n) : ℚ :=
  (entriesOf m).foldl max ((entriesOf m).headD 0)

/-- `np.abs(A) / np.max(A)` — the normalization applied in
src/marc/marc.py (lines 74-92): elementwise absolute value divided by the
signed maximum entry. -/
def normalizeMat {n : ℕ} (m : Mat n) : Mat n :=
  fun i j => |m i j| / maxEntry m

/-- The spec's normalization wording (§4.1): `abs(M) / max(abs(M))`. -/
def normalizeSpecMat {n : ℕ} (m : Mat n) : Mat n :=
  fun i j => |m i j| / maxEntry (fun a b => |m a b|)

/-- Python `==` between a `str` and a `list` never compares contents: it
is always `False`.  marc.py lines 73, 78 and 83 compare the metric string
`m` against the singleton lists `["ewrmsd"]`, `["ewrda"]` and `["mix"]`,
so those conditions are constantly false. -/
def strEqList (_s : String) (_l : List String) : Bool := false

def metricRmsd : String := "rmsd"
def metricErel : String := "erel"
def metricDa : String := "da"
def metricEwrmsd : String := "ewrmsd"
def metricEwda : String := "ewda"
def metricMix : String := "mix"

/-- `valid_m` from src/marc/helpers.py line 295. -/
def validMetrics : List String := ["rmsd", "erel", "da", "ewrmsd", "ewda", "mix"]

/-- The metric-selection, mixing and scaling block of src/marc/marc.py
(lines 47-92), for one run with metric key `met`.  `rmsdM`, `erelM` and
`daM` are the matrices the external metric collaborators would return;
`energiesKnown` is false when some molecule lacks an energy (lines 56-60
raise `InputError` in that case).  The running value of the Python
variable `A` is an `Option`: `none` models `A` never having been
assigned (final `np.abs(A)` would then raise `NameError`; unreachable for
valid metric keys).  The three mixing branches guarded by `strEqList`
reproduce lines 73-87 and never execute. -/
def metricBlock {n : ℕ} (energiesKnown : Bool) (met : String)
    (rmsdM erelM daM : Mat n) : Except MarcError (Mat n) :=
  let A0 : Option (Mat n) :=
    if met ∈ ["rmsd", "ewrmsd", "mix"] then some rmsdM else none
  if met ∈ ["erel", "ewrmsd", "ewda", "mix"] ∧ energiesKnown = false then
    .error .inputError
  else
    let A1 := if met ∈ ["erel", "ewrmsd", "ewda", "mix"] then some erelM else A0
    let A2 := if met ∈ ["da", "ewda", "mix"] then some daM else A1
    let A3 := if strEqList met ["ewrmsd"] then
        some (fun i j => normalizeMat rmsdM i j * normalizeMat erelM i j) else A2
    let A4 := if strEqList met ["ewrda"] then
        some (fun i j => normalizeMat daM i j * normalizeMat erelM i j) else A3
    let A5 := if strEqList met ["mix"] then
        some (fun i j => normalizeMat daM i j * normalizeMat erelM i j * normalizeMat rmsdM i j) else A4
    match A5 with
    | none => .error .nameError
    | some B => .ok (normalizeMat B)

/-- Follows the spec's words (§3 CompositeMatrix, §4.1 MatrixMixer): the
composite matrix for a three-metric mix is the elementwise product of the
independently normalized input matrices, itself re-normalized by its own
maximum.  Stated for comparison with what `metricBlock` actually
computes. -/
def mixSpec {n : ℕ} (rmsdM erelM daM : Mat n) : Mat n :=
  normalizeMat (fun i j => normalizeSpecMat rmsdM i j * normalizeSpecMat erelM i j * normalizeSpecMat daM i j)

/-- All-zero 2×2 dissimilarity matrix: two identical conformers under any
metric. -/
def zeroMat2 : Mat 2 := fun _ _ => 0

/-- Concrete symmetric zero-diagonal 3×3 matrices used to evaluate the
mixing path: conformers 0 and 1 coincide under the geometric metric but
differ energetically and torsionally. -/
def rmsd3 : Mat 3 := ![![0, 0, 1], ![0, 0, 1], ![1, 1, 0]]

def erel3 : Mat 3 := ![![0, 1, 1], ![1, 0, 1], ![1, 1, 0]]

def da3 : Mat 3 := ![![0, 1, 1], ![1, 0, 1], ![1, 1, 0]]

/-- MDS output: one coordinate list (length = `n_components`) per ensemble
member.  `sklearn.manifold.MDS` is external; its fit is an oracle. -/
abbrev Emb (n : ℕ) := Fin n → List ℚ

/-- Result of an external `KMeans` fit on an embedding: `labels` is
`km.labels_` (cluster id per point), `centers c` is row `c` of
`km.cluster_centers_`. -/
structure KmFit (n : ℕ) where
  labels : Fin n → ℕ
  centers : ℕ → List ℚ

/-- `np.unique(cm).size`: number of distinct labels. -/
def numUnique {n : ℕ} (labels : Fin n → ℕ) : ℕ :=
  (((List.finRange n).map labels).dedup).length

/-- `np.where(labels == iclust)[0]`: indices with label `c`, in index
order. -/
def membersPos {n : ℕ} (labels : Fin n → ℕ) (c : ℕ) : List (Fin n) :=
  (List.finRange n).filter (fun i => labels i == c)

/-- The `clusters` list built by each clustering function: one member list
per loop position `iclust ∈ range(u.size)`.  Note the loop compares
labels against the *position* `iclust`, not against `u[iclust]`. -/
def clustersOf {n : ℕ} (labels : Fin n → ℕ) : List (List (Fin n)) :=
  (List.range (numUnique labels)).map (membersPos labels)

/-- Squared Euclidean distance between coordinate lists.  The code calls
`scipy.spatial.distance.euclidean` and compares the resulting distances
with `np.argmin`; since `sqrt` is strictly monotone, comparing squared
distances selects the same index, so argmin-style selections are modelled
on squared distances to stay in ℚ. -/
def euclSq (u v : List ℚ) : ℚ :=
  (List.zipWith (fun a b => (a - b) ^ 2) u v).sum

/-- `np.argmin`: index of the first minimum of a list (`0` on the empty
list, where numpy would raise). -/
def argminQ : List ℚ → ℕ
  | [] => 0
  | [_] => 0
  | x :: y :: t =>
    let j := argminQ (y :: t)
    if (y :: t).getD j 0 < x then j + 1 else 0

/-- `np.argmax`: index of the first maximum of a list (`0` on the empty
list, where numpy would raise). -/
def argmaxQ : List ℚ → ℕ
  | [] => 0
  | [_] => 0
  | x :: y :: t =>
    let j := argmaxQ (y :: t)
    if x < (y :: t).getD j 0 then j + 1 else 0

/-- `cluster_pts_indices[np.argmin([...])]`: the member whose value under
`f` is smallest, first such member in index order. -/
def argminList {n : ℕ} (f : Fin n → ℚ) (l : List (Fin n)) : Option (Fin n) :=
  l[argminQ (l.map f)]?

/-- The candidate cluster counts of src/marc/clustering.py lines 40-47:
`min(max(int(nm * p), 2), 50)` for the five fixed percentages,
de-duplicated (`list(set(...))`; the set's iteration order only matters
for breaking gap-value ties).  Python `int()` truncates toward zero,
which on these non-negative products is the floor. -/
def percList : List ℚ := [1/100, 1/20, 1/10, 1/4, 1/2]

def candidateKs (nm : ℕ) : List ℕ :=
  (percList.map (fun p => min (max (Int.toNat ⌊(nm : ℚ) * p⌋) 2) 50)).dedup

/-- Follows the spec's words (§4.3): `clamp(round(N × p), 2, 50)`,
de-duplicated, with `round` the nearest integer.  Stated for comparison
with `candidateKs`. -/
def candidateKsSpec (nm : ℕ) : List ℕ :=
  (percList.map (fun p => min (max (Int.toNat (round ((nm : ℚ) * p))) 2) 50)).dedup

/-- `n_clusters = max(percentages[np.argmax(gaps)], 2)` (clustering.py
lines 48-49 and 122-123). -/
def resolveK (cands : List ℕ) (gaps : List ℚ) : ℕ :=
  max (cands.getD (argmaxQ gaps) 0) 2

/-- `nrefs=max(nm, 50)` passed to `gap`. -/
def nrefsOf (nm : ℕ) : ℕ := max nm 50

/-- `kmeans_clustering(n_clusters, m, rank=2, verb=0)` from
src/marc/clustering.py lines 35-78.  `mds` models `MDS(...).fit_transform`
applied to (`rank`, matrix); `kmFit` models `KMeans(...).fit_predict`
plus the fitted `labels_`/`cluster_centers_`; `gapsOf` models the call
`gap(x, nrefs=max(nm,50), ks=percentages)`.  The function body contains
no validation and no raise statement, so the result is always `.ok`.
`verb` only gates prints and is unused. -/
def kmeansClustering {n : ℕ} (mds : ℕ → Mat n → Emb n)
    (kmFit : Emb n → ℕ → KmFit n) (gapsOf : Emb n → ℕ → List ℕ → List ℚ)
    (n_clusters : Option ℕ) (m : Mat n) (rank : ℕ) (verb : ℕ) :
    Except MarcError (List (Option (Fin n)) × List (List (Fin n))) :=
  let x := mds rank m
  let k := match n_clusters with
    | some k => k
    | none => resolveK (candidateKs n) (gapsOf x (nrefsOf n) (candidateKs n))
  let fit := kmFit x k
  .ok ((List.range (numUnique fit.labels)).map
        (fun c => argminList (fun i => euclSq (x i) (fit.centers c)) (membersPos fit.labels c)),
      clustersOf fit.labels)

/-- The Python signature `kmeans_clustering(n_clusters, m, rank=2, verb=0)`
supplies defaults `rank = 2`, `verb = 0` when those arguments are
omitted. -/
def kmeansClusteringDefault {n : ℕ} (mds : ℕ → Mat n → Emb n)
    (kmFit : Emb n → ℕ → KmFit n) (gapsOf : Emb n → ℕ → List ℕ → List ℚ)
    (n_clusters : Option ℕ) (m : Mat n) :
    Except MarcError (List (Option (Fin n)) × List (List (Fin n))) :=
  kmeansClustering mds kmFit gapsOf n_clusters m 2 0

/-- The pipeline's dispatch `kmeans_clustering(n_clusters, A, verb)`
(src/marc/marc.py line 95): three positional arguments, so the verbosity
value lands in the `rank` parameter and the `verb` parameter keeps its
default `0`. -/
def marcKmeansCall {n : ℕ} (mds : ℕ → Mat n → Emb n)
    (kmFit : Emb n → ℕ → KmFit n) (gapsOf : Emb n → ℕ → List ℕ → List ℚ)
    (n_clusters : Option ℕ) (A : Mat n) (verb : ℕ) :
    Except MarcError (List (Option (Fin n)) × List (List (Fin n))) :=
  kmeansClustering mds kmFit gapsOf n_clusters A verb 0

/-- `plot_dendrogram` (src/marc/clustering.py lines 17-32), reduced to its
only semantic content: the assertion `np.all(m - m.T < 1e-6)`; the
dendrogram rendering itself is an external side effect.  This helper only
runs when the plot mode exceeds 1, never as part of clustering. -/
def plotDendrogram {n : ℕ} (m : Mat n) : Except MarcError Unit :=
  if ∀ i j, m i j - m j i < 1/1000000 then .ok () else .error .assertionError

/-- `m = np.ones_like(m) - m` (clustering.py lines 82 and 124): the
affinity matrix. -/
def affOf {n : ℕ} (m : Mat n) : Mat n := fun i j => 1 - m i j

/-- Squared Euclidean distance between two matrix rows (see `euclSq` for
why squared). -/
def rowDistSq {n : ℕ} (u v : Fin n → ℚ) : ℚ := ∑ j, (u j - v j) ^ 2

/-- `clf.centroids_[c]` for a `NearestCentroid` fitted with Euclidean
metric on the rows of `mm` under `labels`: the arithmetic mean of the
member rows of cluster `c` (the empty-cluster value `0/0 = 0` is
unreachable: `NearestCentroid.fit` sees only labels that occur). -/
def centroidRow {n : ℕ} (mm : Mat n) (labels : Fin n → ℕ) (c : ℕ) : Fin n → ℚ :=
  fun j => ((membersPos labels c).map (fun i => mm i j)).sum / ((membersPos labels c).length : ℚ)

/-- `agglomerative_clustering` (src/marc/clustering.py lines 109-158) with
an explicit cluster count.  `merge` models the external
`AgglomerativeClustering(n_clusters=k, affinity="precomputed",
linkage="single").fit_predict`, applied — as in the code — to the
affinity matrix `1 - m`, which is also rebound to the Python variable `m`
(line 124) and therefore used both for the `NearestCentroid` fit and for
the representative search rows. -/
def agglomerativeClustering {n : ℕ} (merge : Mat n → ℕ → (Fin n → ℕ))
    (k : ℕ) (m : Mat n) :
    List (Option (Fin n)) × List (List (Fin n)) :=
  let mA := affOf m
  let labels := merge mA k
  ((List.range (numUnique labels)).map
      (fun c => argminList (fun i => rowDistSq (mA i) (centroidRow mA labels c)) (membersPos labels c)),
    clustersOf labels)

/-- Follows the spec's words (§4.4c): same single-linkage merge on the
affinity matrix, but the nearest-centroid model and the representative
search use the *original dissimilarity rows* as feature vectors.  Stated
for comparison with `agglomerativeClustering`. -/
def agglomerativeClusteringSpec {n : ℕ} (merge : Mat n → ℕ → (Fin n → ℕ))
    (k : ℕ) (m : Mat n) :
    List (Option (Fin n)) × List (List (Fin n)) :=
  let mA := affOf m
  let labels := merge mA k
  ((List.range (numUnique labels)).map
      (fun c => argminList (fun i => rowDistSq (m i) (centroidRow m labels c)) (membersPos labels c)),
    clustersOf labels)

/-- Result of a `KMeans` fit inside `gap`, with fixed-width coordinates
(`Fin r`): `centers c` is `kmc[c, :]`, `labels` is `kml`. -/
structure KmFitR (N r : ℕ) where
  centers : ℕ → Fin r → ℚ
  labels : Fin N → ℕ

/-- `tops = data.max(axis=0)`: per-dimension maximum of the embedding
(`n+1` rows, so the array is never empty). -/
def topsOf {n r : ℕ} (data : Fin (n+1) → Fin r → ℚ) (j : Fin r) : ℚ :=
  ((List.finRange (n+1)).map (fun i => data i j)).foldl max (data 0 j)

/-- `bots = data.min(axis=0)`. -/
def botsOf {n r : ℕ} (data : Fin (n+1) → Fin r → ℚ) (j : Fin r) : ℚ :=
  ((List.finRange (n+1)).map (fun i => data i j)).foldl min (data 0 j)

/-- `dists = scipy.matrix(scipy.diag(tops - bots))` (clustering.py line
166): the diagonal scale matrix of the bounding box. -/
def boxDiag {n r : ℕ} (data : Fin (n+1) → Fin r → ℚ) : Matrix (Fin r) (Fin r) ℚ :=
  Matrix.diagonal (fun j => topsOf data j - botsOf data j)

/-- `rands[:, :, s] * dists + bots` (clustering.py line 169): reference
dataset number `s`, obtained from the raw uniform sample `raw` (entries
in `[0,1]`, drawn by `scipy.random.random_sample`) by the `np.matrix`
product with the diagonal bounding-box matrix plus the broadcast of
`bots`. -/
def refTransform {n r nr : ℕ} (data : Fin (n+1) → Fin r → ℚ)
    (raw : Fin (n+1) → Fin r → Fin nr → ℚ) (s : Fin nr) :
    Fin (n+1) → Fin r → ℚ :=
  fun i j => ((Matrix.of (fun a t => raw a t s)) * boxDiag data) i j + botsOf data j

/-- `sum([euclidean(x[m, :], kmc[kml[m], :]) for m in range(shape[0])])`:
total within-cluster dispersion, the sum over all points of the Euclidean
distance to the centroid of the cluster the point is assigned to.
`sqrtF` abstracts the floating-point square root inside `euclidean`. -/
def dispOf {n r : ℕ} (sqrtF : ℚ → ℚ) (x : Fin (n+1) → Fin r → ℚ)
    (fit : KmFitR (n+1) r) : ℚ :=
  ∑ i, sqrtF (∑ j, (x i j - fit.centers (fit.labels i) j) ^ 2)

/-- The `gap` function of src/marc/clustering.py lines 161-191 (the
`refs=None` branch used by the pipeline): for each candidate `k` in `ks`,
fit KMeans on the real embedding and on each transformed reference
dataset, and record `scipy.mean(scipy.log(refdisps)) - scipy.log(disp)`.
`kmOf` abstracts the `KMeans(n_clusters=k, n_init=5).fit` results and
`sqrtF`/`logF` the floating-point `sqrt` and `log`. -/
def gapList {n r nr : ℕ} (sqrtF logF : ℚ → ℚ)
    (kmOf : (Fin (n+1) → Fin r → ℚ) → ℕ → KmFitR (n+1) r)
    (data : Fin (n+1) → Fin r → ℚ) (raw : Fin (n+1) → Fin r → Fin nr → ℚ)
    (ks : List ℕ) : List ℚ :=
  ks.map (fun k =>
    (∑ s, logF (dispOf sqrtF (refTransform data raw s) (kmOf (refTransform data raw s) k)))
        / (nr : ℚ)
      - logF (dispOf sqrtF data (kmOf data k)))

/-- The energy-window block of src/marc/marc.py lines 105-132.  Lines
106-111 re-check that all energies are set (`InputError` otherwise).  The
per-cluster loop's first statement `avgs[i] = energy.mean` (line 118)
references the name `energy`, which is defined nowhere in the module, so
the first iteration raises `NameError`; when `clusters` is empty the loop
is skipped and `np.min(avgs)` on the empty `avgs` raises `ValueError`.
The later filtering logic (lines 120-132) is unreachable. -/
def ewinBlock (energiesKnown : Bool) (indices : List ℕ)
    (clusters : List (List ℕ)) (energies : List ℚ) (ewin : ℚ) :
    Except MarcError (List ℕ) :=
  if energiesKnown = false then .error .inputError
  else
    match indices, clusters, energies, ewin with
    | _, [], _, _ => .error .valueError
    | _, _ :: _, _, _ => .error .nameError

/-- The 9-tuple returned by `processargs` (src/marc/helpers.py lines
311-321): `(basename, molecules, dof, c, m, n, ewin, plotmode, verb)`,
modelled as a heterogeneously-typed Python tuple flattened to a list. -/
def processargsReturn {α : Type} (basename molecules dof c m nclusters ewin plotmode verb : α) :
    List α :=
  [basename, molecules, dof, c, m, nclusters, ewin, plotmode, verb]

/-- The tuple unpacking at the top of src/marc/marc.py (lines 22-32):
eight names `(basename, molecules, c, m, n_clusters, ewin, plotmode,
verb)`.  Python unpacking of a tuple whose length is not exactly eight
raises `ValueError` (`too many values to unpack`). -/
def marcUnpack {α : Type} (t : List α) :
    Except MarcError (α × α × α × α × α × α × α × α) :=
  match t with
  | [basename, molecules, c, m, nclusters, ewin, plotmode, verb] =>
      .ok (basename, molecules, c, m, nclusters, ewin, plotmode, verb)
  | _ => .error .valueError

/-- Trivial external-library oracles: a constant one-dimensional
embedding, a single cluster with center at the origin, and a constant gap
list. -/
def mds0 (n : ℕ) : ℕ → Mat n → Emb n := fun _ _ => fun _ => [0]

def km0 (n : ℕ) : Emb n → ℕ → KmFit n := fun _ _ => ⟨fun i => i.val, fun _ => [0]⟩

def gaps0 (n : ℕ) : Emb n → ℕ → List ℕ → List ℚ := fun _ _ _ => [0]

/-- A one-member ensemble (fewer than 2 members). -/
def oneMat : Mat 1 := ![![0]]

/-- A numerically asymmetric 2×2 matrix (`m[0,1] - m[1,0] = 1`, far
beyond the `1e-6` tolerance). -/
def asymMat : Mat 2 := ![![0, 1], ![0, 0]]

/-- An MDS oracle whose output genuinely depends on the requested number
of components: rank 2 yields coordinates `[1 - i]`, any other rank yields
`[i]`. -/
def mdsW : ℕ → Mat 2 → Emb 2 :=
  fun r _ => if r = 2 then (fun i => [1 - (i.val : ℚ)]) else (fun i => [(i.val : ℚ)])

def kmW : Emb 2 → ℕ → KmFit 2 := fun _ _ => ⟨fun _ => 0, fun _ => [0]⟩

def gapsW : Emb 2 → ℕ → List ℕ → List ℚ := fun _ _ _ => [0]

def matW : Mat 2 := fun _ _ => 0

/-- A concrete dense label assignment on three points with two clusters. -/
def labels3 : Fin 3 → ℕ := ![0, 1, 0]

/-- Concrete instances for the gap-statistic witness. -/
def data1 : Fin 1 → Fin 1 → ℚ := fun _ _ => 3

def raw1 : Fin 1 → Fin 1 → Fin 1 → ℚ := fun _ _ _ => 1/2

def km1 : (Fin 1 → Fin 1 → ℚ) → ℕ → KmFitR 1 1 := fun _ _ => ⟨fun _ _ => 0, fun _ => 0⟩

/-- Gap values paired with the four candidate counts of a 58-member
ensemble. -/
def gaps4 : List ℚ := [0, 7, 3, 5]

theorem le_foldl_max (l : List ℚ) (a : ℚ) : a ≤ l.foldl max a := by
  induction l generalizing a with
  | nil => exact le_rfl
  | cons x xs ih => exact le_trans (le_max_left a x) (ih (max a x))

theorem foldl_min_le (l : List ℚ) (a : ℚ) : l.foldl min a ≤ a := by
  induction l generalizing a with
  | nil => exact le_rfl
  | cons x xs ih => exact le_trans (ih (min a x)) (min_le_left a x)

theorem botsOf_le_topsOf {n r : ℕ} (data : Fin (n+1) → Fin r → ℚ) (j : Fin r) :
    botsOf data j ≤ topsOf data j :=
  le_trans (foldl_min_le _ _) (le_foldl_max _ _)

theorem argmaxQ_lt_length : ∀ (l : List ℚ), l ≠ [] → argmaxQ l < l.length
  | [], h => absurd rfl h
  | [_], _ => by simp [argmaxQ]
  | x :: y :: t, _ => by
    have ih := argmaxQ_lt_length (y :: t) (by simp)
    simp only [argmaxQ]
    split
    · simpa using Nat.succ_lt_succ ih
    · simp

theorem getD_le_argmaxQ : ∀ (l : List ℚ) (i : ℕ), i < l.length →
    l.getD i 0 ≤ l.getD (argmaxQ l) 0
  | [], i, h => by simp at h
  | [x], i, h => by
    have : i = 0 := by simp at h; omega
    subst this
    simp [argmaxQ]
  | x :: y :: t, i, h => by
    have ih := fun i hi => getD_le_argmaxQ (y :: t) i hi
    have hlt := argmaxQ_lt_length (y :: t) (by simp)
    simp only [argmaxQ]
    split
    case isTrue hc =>
      cases i with
      | zero => simpa using le_of_lt (lt_of_lt_of_le hc (le_refl _))
      | succ i =>
        have hi : i < (y :: t).length := by simpa using h
        simpa using ih i hi
    case isFalse hc =>
      push_neg at hc
      cases i with
      | zero => simp
      | succ i =>
        have hi : i < (y :: t).length := by simpa using h
        simpa using le_trans (ih i hi) hc

theorem mem_membersPos {n : ℕ} (labels : Fin n → ℕ) (c : ℕ) (i : Fin n) :
    i ∈ membersPos labels c ↔ labels i = c := by
  simp [membersPos, List.mem_filter, List.mem_finRange]

theorem argminList_congr {n : ℕ} (f g : Fin n → ℚ) (l : List (Fin n))
    (h : ∀ i ∈ l, f i = g i) : argminList f l = argminList g l := by
  unfold argminList
  rw [List.map_congr_left h]

theorem sum_map_one_sub {n : ℕ} (l : List (Fin n)) (f : Fin n → ℚ) :
    (l.map (fun i => 1 - f i)).sum = (l.length : ℚ) - (l.map f).sum := by
  induction l with
  | nil => simp
  | cons x xs ih =>
    simp only [List.map_cons, List.sum_cons, ih, List.length_cons]
    push_cast
    ring

/-- Claim C9: `processargs` returns a 9-tuple `(basename, molecules, dof,
c, m, n, ewin, plotmode, verb)` while the pipeline module destructures its
result into only 8 names, so the unpacking always raises (`ValueError`),
before any dissimilarity matrix is built or any clustering runs. -/
theorem startup_unpack_mismatch {α : Type}
    (basename molecules dof c m nclusters ewin plotmode verb : α) :
    marcUnpack (processargsReturn basename molecules dof c m nclusters ewin plotmode verb) =
      Except.error MarcError.valueError := rfl

/-- Claim C3 (code evaluation): on a run with two singleton clusters,
cluster-average energies 1 and 5 and window `ewin = 0`, the energy-window
block raises `NameError` (line 118 references the undefined name
`energy`) instead of filtering the representatives. -/
theorem energy_filter_raises_name_error :
    ewinBlock true [0, 1] [[0], [1]] [1, 5] 0 = Except.error MarcError.nameError := rfl

/-- Claim C1 (counterexample): for an ensemble of identical conformers the
input matrix is all zeros, its maximum is `0`, and the metric block does
not signal `DegenerateMetric`: it divides by the zero maximum (NaN in
numpy, junk value `0` in this exact model) and returns normally. -/
theorem zero_max_matrix_not_rejected :
    maxEntry zeroMat2 = 0 ∧
    metricBlock true metricRmsd zeroMat2 zeroMat2 zeroMat2 = Except.ok (normalizeMat zeroMat2) ∧
    metricBlock true metricRmsd zeroMat2 zeroMat2 zeroMat2 ≠
      Except.error MarcError.degenerateMetric := by
  refine ⟨rfl, rfl, ?_⟩
  intro h
  rw [show metricBlock true metricRmsd zeroMat2 zeroMat2 zeroMat2 =
      Except.ok (normalizeMat zeroMat2) from rfl] at h
  exact Except.noConfusion h

/-- Claim C1 (amended): the metric block contains no zero-maximum check
and no `DegenerateMetric` error at all — for every valid metric key and
all input matrices (including all-zero ones) it returns `.ok`; failure,
if any, can only surface later inside external library calls. -/
theorem metric_block_never_signals_degenerate {n : ℕ} (met : String)
    (hm : met ∈ validMetrics) (rmsdM erelM daM : Mat n) :
    ∃ B, metricBlock true met rmsdM erelM daM = Except.ok B := by
  simp only [validMetrics, List.mem_cons, List.not_mem_nil, or_false] at hm
  rcases hm with rfl | rfl | rfl | rfl | rfl | rfl
  all_goals exact ⟨_, rfl⟩

theorem metric_block_never_signals_degenerate_witness :
    metricMix ∈ validMetrics ∧
    ∃ B, metricBlock true metricMix zeroMat2 zeroMat2 zeroMat2 = Except.ok B :=
  ⟨by decide, metric_block_never_signals_degenerate metricMix (by decide)
      zeroMat2 zeroMat2 zeroMat2⟩

/-- Claim C2 (code evaluation): on a request for the metric key `mix`,
the comparison `m == ["mix"]` is between a string and a list and is
always false, so the mixing block never runs: the matrix handed to
clustering is the normalized dihedral matrix alone (the last branch to
assign `A`), not the re-normalized elementwise product of the three
normalized matrices. -/
theorem mix_request_uses_last_matrix_only :
    metricBlock true metricMix rmsd3 erel3 da3 = Except.ok (normalizeMat da3) ∧
    normalizeMat da3 ≠ mixSpec rmsd3 erel3 da3 := by
  refine ⟨rfl, ?_⟩
  intro h
  have h01 := congrFun (congrFun h 0) 1
  have hL : normalizeMat da3 0 1 = 1 := by
    have hm : maxEntry da3 = 1 := by decide
    have hv : da3 0 1 = 1 := rfl
    simp only [normalizeMat, hm, hv]
    norm_num
  have hR : mixSpec rmsd3 erel3 da3 0 1 = 0 := by
    simp [mixSpec, normalizeMat, normalizeSpecMat, rmsd3]
  rw [hL, hR] at h01
  norm_num at h01

theorem candidateKs_at_58 : candidateKs 58 = [2, 5, 14, 29] := by
  have h1 : percList.map (fun p => min (max (Int.toNat ⌊((58 : ℕ) : ℚ) * p⌋) 2) 50)
      = [2, 2, 5, 14, 29] := by
    push_cast
    norm_num [percList]
    decide
  unfold candidateKs
  rw [h1]
  decide

theorem candidateKsSpec_at_58 : candidateKsSpec 58 = [2, 3, 6, 15, 29] := by
  have h1 : percList.map (fun p => min (max (Int.toNat (round (((58 : ℕ) : ℚ) * p))) 2) 50)
      = [2, 3, 6, 15, 29] := by
    push_cast
    norm_num [percList, round_eq]
    decide
  unfold candidateKsSpec
  rw [h1]
  decide

/-- Claim C4 (counterexample): on an ensemble of 58 conformers the code's
candidate set (truncation by `int()`) is `{2, 5, 14, 29}` while the
claimed `clamp(round(N·p), 2, 50)` policy yields `{2, 3, 6, 15, 29}`:
`58 × 0.05 = 2.9` truncates to 2 but rounds to 3. -/
theorem candidate_set_round_vs_trunc :
    candidateKsSpec 58 ≠ candidateKs 58 ∧ 3 ∈ candidateKsSpec 58 ∧ 3 ∉ candidateKs 58 := by
  rw [candidateKs_at_58, candidateKsSpec_at_58]
  decide

theorem mem_candidateKs (nm k : ℕ) :
    k ∈ candidateKs nm ↔
      ∃ p ∈ percList, k = min (max (Int.toNat ⌊(nm : ℚ) * p⌋) 2) 50 := by
  unfold candidateKs
  simp [List.mem_dedup, List.mem_map, eq_comm]

theorem two_le_of_mem_candidateKs {nm k : ℕ} (h : k ∈ candidateKs nm) : 2 ≤ k := by
  rw [mem_candidateKs] at h
  obtain ⟨p, _, rfl⟩ := h
  have h2 : 2 ≤ max (Int.toNat ⌊(nm : ℚ) * p⌋) 2 := le_max_right _ _
  omega

theorem candidateKs_ne_nil (nm : ℕ) : candidateKs nm ≠ [] := by
  unfold candidateKs
  rw [Ne, List.dedup_eq_nil, List.map_eq_nil_iff]
  simp [percList]

/-- Claim C4 (amended: the code clamps `int(N·p)`, i.e. truncation toward
zero — the floor on these non-negative products — not `round(N·p)`):
with no explicit cluster count, both the centroid-based and the
hierarchical strategies evaluate the gap statistic over the de-duplicated
candidate set `{clamp(int(N·p), 2, 50) : p ∈ {.01, .05, .1, .25, .5}}`
with `nrefs = max(N, 50)` reference datasets, and select the candidate
with the maximal gap value (first such candidate on ties), floored at
2. -/
theorem candidate_policy_trunc (nm : ℕ) (gaps : List ℚ)
    (h : gaps.length = (candidateKs nm).length) :
    nrefsOf nm = max nm 50 ∧
    (∀ k, k ∈ candidateKs nm ↔
      ∃ p ∈ percList, k = min (max (Int.toNat ⌊(nm : ℚ) * p⌋) 2) 50) ∧
    resolveK (candidateKs nm) gaps ∈ candidateKs nm ∧
    2 ≤ resolveK (candidateKs nm) gaps ∧
    (∀ i, i < gaps.length → gaps.getD i 0 ≤ gaps.getD (argmaxQ gaps) 0) ∧
    resolveK (candidateKs nm) gaps = (candidateKs nm).getD (argmaxQ gaps) 0 := by
  have hne : gaps ≠ [] := by
    intro hnil
    apply candidateKs_ne_nil nm
    rw [hnil] at h
    exact List.length_eq_zero.mp h.symm
  have hlt : argmaxQ gaps < (candidateKs nm).length := h ▸ argmaxQ_lt_length gaps hne
  have hmem : (candidateKs nm).getD (argmaxQ gaps) 0 ∈ candidateKs nm := by
    rw [List.getD_eq_getElem _ _ hlt]
    exact List.getElem_mem hlt
  have h2 : 2 ≤ (candidateKs nm).getD (argmaxQ gaps) 0 := two_le_of_mem_candidateKs hmem
  have hres : resolveK (candidateKs nm) gaps = (candidateKs nm).getD (argmaxQ gaps) 0 := by
    unfold resolveK
    omega
  exact ⟨rfl, mem_candidateKs nm, hres ▸ hmem, hres ▸ h2, getD_le_argmaxQ gaps, hres⟩

theorem candidate_policy_trunc_witness :
    gaps4.length = (candidateKs 58).length ∧
    resolveK (candidateKs 58) gaps4 ∈ candidateKs 58 ∧
    2 ≤ resolveK (candidateKs 58) gaps4 := by
  have h : gaps4.length = (candidateKs 58).length := by
    rw [candidateKs_at_58]
    rfl
  exact ⟨h, (candidate_policy_trunc 58 gaps4 h).2.2.1,
    (candidate_policy_trunc 58 gaps4 h).2.2.2.1⟩

/-- Claim C7 (counterexample): the clustering strategies perform no input
validation of their own.  A one-member ensemble (fewer than 2 members)
with a requested count `k = 5 ≥ N`, and a numerically asymmetric matrix
(`asymMat 0 1 - asymMat 1 0 = 1`, far beyond the `1e-6` tolerance), are
both accepted and clustered normally — no `InsufficientData`, no
`MalformedMatrix`. -/
theorem clustering_accepts_degenerate_input :
    kmeansClustering (mds0 1) (km0 1) (gaps0 1) (some 5) oneMat 2 0 =
      Except.ok ([some 0], [[0]]) ∧
    kmeansClustering (mds0 2) (km0 2) (gaps0 2) (some 5) asymMat 2 0 =
      Except.ok ([some 0, some 1], [[0], [1]]) ∧
    asymMat 0 1 - asymMat 1 0 = 1 ∧
    (Except.ok ([some 0], [[0]]) :
        Except MarcError (List (Option (Fin 1)) × List (List (Fin 1)))) ≠
      Except.error MarcError.insufficientData ∧
    (Except.ok ([some 0, some 1], [[0], [1]]) :
        Except MarcError (List (Option (Fin 2)) × List (List (Fin 2)))) ≠
      Except.error MarcError.malformedMatrix := by
  refine ⟨rfl, rfl, ?_, ?_, ?_⟩
  · have h1 : asymMat 0 1 = 1 := rfl
    have h2 : asymMat 1 0 = 0 := rfl
    rw [h1, h2]
    norm_num
  · intro h
    exact Except.noConfusion h
  · intro h
    exact Except.noConfusion h

/-- Claim C7 (amended): none of the repository's clustering functions
validates its input — `kmeans_clustering` returns normally on every
input, however degenerate (the same holds for the other two variants,
which are likewise raise-free); the only symmetry check in the
repository is the assertion `np.all(m - m.T < 1e-6)` inside
`plot_dendrogram`, which runs only when a dendrogram plot is requested
(plotmode > 1), not before clustering, and whose one-sided comparison is
nevertheless equivalent to bounding `|m[i,j] - m[j,i]|` because it
ranges over all ordered pairs. -/
theorem validation_only_in_dendrogram :
    (∀ (n : ℕ) (mds : ℕ → Mat n → Emb n) (kmFit : Emb n → ℕ → KmFit n)
       (gapsOf : Emb n → ℕ → List ℕ → List ℚ) (nc : Option ℕ) (m : Mat n)
       (rank verb : ℕ),
       ∃ out, kmeansClustering mds kmFit gapsOf nc m rank verb = Except.ok out) ∧
    (∀ (n : ℕ) (m : Mat n),
       plotDendrogram m = Except.ok () ↔ ∀ i j, |m i j - m j i| < 1/1000000) := by
  constructor
  · intro n mds kmFit gapsOf nc m rank verb
    exact ⟨_, rfl⟩
  · intro n m
    unfold plotDendrogram
    split
    case isTrue h =>
      simp only [iff_true_intro rfl, true_iff]
      intro i j
      rw [abs_sub_lt_iff]
      exact ⟨h i j, h j i⟩
    case isFalse h =>
      constructor
      · intro hbad
        exact Except.noConfusion hbad
      · intro habs
        exact absurd (fun i j => lt_of_le_of_lt (le_abs_self _) (habs i j)) h

/-- Claim C10 (code evaluation): the Python signature
`kmeans_clustering(n_clusters, m, rank=2, verb=0)` defaults `rank` to 2,
but the pipeline call `kmeans_clustering(n_clusters, A, verb)` passes the
verbosity positionally into `rank`: with the default CLI verbosity 1 the
embedding is one-dimensional, and under an MDS oracle whose output
depends on the component count the pipeline result differs from the
rank-2 result the claim describes. -/
theorem verb_passed_as_rank :
    kmeansClusteringDefault mdsW kmW gapsW (some 1) matW =
      kmeansClustering mdsW kmW gapsW (some 1) matW 2 0 ∧
    marcKmeansCall mdsW kmW gapsW (some 1) matW 1 =
      Except.ok ([some 0], [[0, 1]]) ∧
    kmeansClustering mdsW kmW gapsW (some 1) matW 2 0 =
      Except.ok ([some 1], [[0, 1]]) ∧
    (Except.ok ([some 0], [[0, 1]]) :
        Except MarcError (List (Option (Fin 2)) × List (List (Fin 2)))) ≠
      Except.ok ([some 1], [[0, 1]]) := by
  refine ⟨rfl, ?_, ?_, ?_⟩
  · have hx : mdsW 1 matW = fun i => [(i.val : ℚ)] := by
      simp [mdsW]
    simp only [marcKmeansCall, kmeansClustering, hx, kmW, numUnique, membersPos, clustersOf,
      argminList]
    norm_num [List.finRange, List.range, List.range.loop, euclSq, argminQ]
    rfl
  · have hx : mdsW 2 matW = fun i => [1 - (i.val : ℚ)] := by
      simp [mdsW]
    simp only [kmeansClustering, hx, kmW, numUnique, membersPos, clustersOf, argminList]
    norm_num [List.finRange, List.range, List.range.loop, euclSq, argminQ]
    rfl
  · simp

/-- Claim C8: for label vectors as produced by the three clustering
library calls — dense ids covering `0..K-1` — the member lists collected
by the `for iclust in range(u.size)` loops partition the ensemble index
range: there are exactly `K` clusters, membership of cluster `c` is
exactly `labels i = c`, every index belongs to some cluster, and no index
belongs to two clusters. -/
theorem cluster_assignment_partition (n K : ℕ) (labels : Fin n → ℕ)
    (hlt : ∀ i, labels i < K) (hsur : ∀ c, c < K → ∃ i, labels i = c) :
    (clustersOf labels).length = K ∧
    (∀ c, c < K → ∀ i : Fin n, (i ∈ (clustersOf labels).getD c []) ↔ labels i = c) ∧
    (∀ i : Fin n, ∃ c, c < K ∧ i ∈ (clustersOf labels).getD c []) ∧
    (∀ c d, c < K → d < K → c ≠ d → ∀ i : Fin n,
       i ∈ (clustersOf labels).getD c [] → i ∉ (clustersOf labels).getD d []) := by
  have himg : ((List.finRange n).map labels).toFinset = Finset.range K := by
    ext c
    simp only [List.mem_toFinset, List.mem_map, List.mem_finRange, true_and, Finset.mem_range]
    constructor
    · rintro ⟨i, rfl⟩
      exact hlt i
    · exact hsur c
  have hK : numUnique labels = K := by
    unfold numUnique
    rw [← List.card_toFinset, himg, Finset.card_range]
  have hlen : (clustersOf labels).length = K := by
    simp [clustersOf, hK]
  have hgetD : ∀ c, c < K → (clustersOf labels).getD c [] = membersPos labels c := by
    intro c hc
    have hc2 : c < (clustersOf labels).length := by rw [hlen]; exact hc
    unfold clustersOf at hc2 ⊢
    rw [List.getD_eq_getElem _ _ hc2]
    simp
  have hmem : ∀ c, c < K → ∀ i : Fin n,
      (i ∈ (clustersOf labels).getD c []) ↔ labels i = c := by
    intro c hc i
    rw [hgetD c hc, mem_membersPos]
  refine ⟨hlen, hmem, ?_, ?_⟩
  · intro i
    exact ⟨labels i, hlt i, (hmem (labels i) (hlt i) i).mpr rfl⟩
  · intro c d hc hd hne i hic hid
    exact hne (((hmem c hc i).mp hic).symm.trans ((hmem d hd i).mp hid))

theorem cluster_assignment_partition_witness :
    (∀ i, labels3 i < 2) ∧ (∀ c, c < 2 → ∃ i, labels3 i = c) ∧
    (clustersOf labels3).length = 2 := by
  have h1 : ∀ i, labels3 i < 2 := by decide
  have h2 : ∀ c, c < 2 → ∃ i, labels3 i = c := by decide
  exact ⟨h1, h2, (cluster_assignment_partition 3 2 labels3 h1 h2).1⟩

theorem centroidRow_aff {n : ℕ} (m : Mat n) (labels : Fin n → ℕ) (c : ℕ)
    (hne : membersPos labels c ≠ []) (j : Fin n) :
    centroidRow (affOf m) labels c j = 1 - centroidRow m labels c j := by
  unfold centroidRow affOf
  have hlen : ((membersPos labels c).length : ℚ) ≠ 0 := by
    have h0 : (membersPos labels c).length ≠ 0 := by
      simpa [List.length_eq_zero] using hne
    exact_mod_cast h0
  rw [sum_map_one_sub, sub_div, div_self hlen]

theorem rowDistSq_aff {n : ℕ} (m : Mat n) (labels : Fin n → ℕ) (c : ℕ)
    (i : Fin n) (hi : i ∈ membersPos labels c) :
    rowDistSq (affOf m i) (centroidRow (affOf m) labels c) =
      rowDistSq (m i) (centroidRow m labels c) := by
  unfold rowDistSq
  apply Finset.sum_congr rfl
  intro j _
  rw [centroidRow_aff m labels c (List.ne_nil_of_mem hi) j]
  show ((1 - m i j) - (1 - centroidRow m labels c j)) ^ 2 = _
  ring

/-- Claim C6: for any single-linkage merge result on the affinity matrix
`1 - m`, the representative the code picks — the cluster member whose
*affinity* row is nearest (Euclidean, first index on ties) to the
cluster's mean affinity row — coincides with the representative described
by the spec, the member whose *original dissimilarity* row is nearest to
the cluster's mean dissimilarity row: the elementwise map `x ↦ 1 - x` is
an isometry for Euclidean row distances and commutes with the centroid
mean.  The member lists are identical as well. -/
theorem agglomerative_rep_row_space_equiv {n : ℕ} (merge : Mat n → ℕ → (Fin n → ℕ))
    (k : ℕ) (m : Mat n) :
    agglomerativeClustering merge k m = agglomerativeClusteringSpec merge k m := by
  unfold agglomerativeClustering agglomerativeClusteringSpec
  refine Prod.ext ?_ rfl
  apply List.map_congr_left
  intro c _
  apply argminList_congr
  intro i hi
  exact rowDistSq_aff m (merge (affOf m) k) c i hi

/-- Claim C5: for every embedding and candidate `k`, the gap list entry
for `k` equals `mean(log(reference_dispersion)) - log(real_dispersion)`,
where each dispersion is the sum over all points of the (abstracted)
Euclidean distance to the centroid of the cluster the point is assigned
to, and every coordinate of every reference dataset — produced by the
diagonal-matrix product `rands[:,:,s] * diag(tops - bots) + bots` from
raw uniform samples in `[0,1]` — lies within the per-dimension bounding
box `[min, max]` of the real embedding. -/
theorem gap_statistic_structure {n r nr : ℕ} (sqrtF logF : ℚ → ℚ)
    (kmOf : (Fin (n+1) → Fin r → ℚ) → ℕ → KmFitR (n+1) r)
    (data : Fin (n+1) → Fin r → ℚ) (raw : Fin (n+1) → Fin r → Fin nr → ℚ)
    (ks : List ℕ)
    (hraw : ∀ i t s, 0 ≤ raw i t s ∧ raw i t s ≤ 1) :
    (∀ s i j,
       refTransform data raw s i j
         = raw i j s * (topsOf data j - botsOf data j) + botsOf data j ∧
       botsOf data j ≤ refTransform data raw s i j ∧
       refTransform data raw s i j ≤ topsOf data j) ∧
    (∀ idx, idx < ks.length →
       (gapList sqrtF logF kmOf data raw ks).getD idx 0 =
         (∑ s, logF (∑ i, sqrtF (∑ j,
             (refTransform data raw s i j
               - (kmOf (refTransform data raw s) (ks.getD idx 0)).centers
                   ((kmOf (refTransform data raw s) (ks.getD idx 0)).labels i) j) ^ 2)))
           / (nr : ℚ)
         - logF (∑ i, sqrtF (∑ j,
             (data i j - (kmOf data (ks.getD idx 0)).centers
                 ((kmOf data (ks.getD idx 0)).labels i) j) ^ 2))) := by
  constructor
  · intro s i j
    have hform : refTransform data raw s i j
        = raw i j s * (topsOf data j - botsOf data j) + botsOf data j := by
      unfold refTransform boxDiag
      rw [Matrix.mul_diagonal]
      simp [Matrix.of_apply]
    have hd : 0 ≤ topsOf data j - botsOf data j := by
      have hbt := botsOf_le_topsOf data j
      linarith
    obtain ⟨h0, h1⟩ := hraw i j s
    refine ⟨hform, ?_, ?_⟩
    · rw [hform]
      nlinarith
    · rw [hform]
      nlinarith
  · intro idx hidx
    unfold gapList
    rw [List.getD_eq_getElem _ _ (by simpa using hidx), List.getElem_map,
      ← List.getD_eq_getElem ks 0 hidx]
    simp only [dispOf]

theorem gap_statistic_structure_witness :
    (∀ (i : Fin 1) (t : Fin 1) (s : Fin 1), 0 ≤ raw1 i t s ∧ raw1 i t s ≤ 1) ∧
    (botsOf data1 0 ≤ refTransform data1 raw1 0 0 0 ∧
     refTransform data1 raw1 0 0 0 ≤ topsOf data1 0) := by
  have h : ∀ (i : Fin 1) (t : Fin 1) (s : Fin 1), 0 ≤ raw1 i t s ∧ raw1 i t s ≤ 1 := by
    intro i t s
    constructor <;> norm_num [raw1]
  exact ⟨h, ((gap_statistic_structure id id km1 data1 raw1 [2] h).1 0 0 0).2⟩
